import Mathlib

/-!
Verification of the nombrilo Minecraft Anvil/NBT library against its
natural-language specification.

The development shallowly embeds the Rust source (src/unpack/nosimd.rs,
src/chunk_format.rs, src/anvil.rs, src/de/read.rs, src/de/mod.rs,
src/ser/mod.rs, src/ser/formatter.rs, src/ser/tag_type.rs,
src/ser/map_key.rs, src/nbt.rs, src/nbt/owned.rs):

* byte buffers are `List Nat` with each element a byte value;
* Rust machine integers become `Nat` or `Int` with explicit two's
  complement conversions where casts occur in the source;
* fallible Rust code returns `Except`; code paths that panic in Rust
  (slice `split_at` out of bounds, `usize` subtraction underflow,
  `unwrap` of `None`, out-of-bounds indexing) are modelled as `none`
  of an outer `Option` layer, kept distinct from returned error values;
* the compilation target is modelled as a 64-bit little-endian machine
  (the dominant configuration; `usize::BITS = 64`,
  `cfg!(target_endian = "big") = false`).
-/

/-! ### Byte-order primitives (u64::from_le_bytes / from_be_bytes etc.) -/

/-- Value of a byte list interpreted little-endian (head is least
significant).  `u64FromLeList [b0,…,b7]` models `u64::from_le_bytes`. -/
def u64FromLeList : List Nat → Nat
  | [] => 0
  | b :: rest => b + 256 * u64FromLeList rest

/-- Value of a byte list interpreted big-endian (head is most
significant); models `uN::from_be_bytes` for every width. -/
def beNat (l : List Nat) : Nat :=
  l.foldl (fun acc b => acc * 256 + b) 0

/-- Two's complement reading of an unsigned `w`-bit value as a signed
integer, modelling `iN::from_be_bytes` composed with `beNat`. -/
def toSigned (w : Nat) (u : Nat) : Int :=
  if u < 2 ^ (w - 1) then (u : Int) else (u : Int) - 2 ^ w

/-- Cast of a signed value to `u64` (Rust `as u64`): two's complement
reduction modulo `2 ^ 64`. -/
def u64OfI64 (v : Int) : Nat :=
  (v % (2 ^ 64)).toNat

/-- Cast of a signed value to `u8` (Rust `as u8`). -/
def u8OfI8 (v : Int) : Nat :=
  (v % 256).toNat

/-! ### src/unpack/nosimd.rs -/

/-- Loop body of `unpack4`: for every group of 8 bytes, build the 64-bit
word (`from_be_bytes` when `big_endian`, `from_le_bytes` otherwise,
where big-endian reading is little-endian reading of the reversed
bytes) and emit the 16 nybbles `(long >> (j*4)) & 0x0f`. -/
def unpack4Chunks : List Nat → Bool → List Nat
  | b0 :: b1 :: b2 :: b3 :: b4 :: b5 :: b6 :: b7 :: rest, big_endian =>
    let chunk := [b0, b1, b2, b3, b4, b5, b6, b7]
    let long := u64FromLeList (if big_endian then chunk.reverse else chunk)
    ((List.range 16).map fun j => (long >>> (j * 4)) &&& 0x0f)
      ++ unpack4Chunks rest big_endian
  | _, _ => []

/-- `unpack4` from src/unpack/nosimd.rs: unpacks 4-bit values from a
byte buffer into 16-bit values; empty result if the input length is not
a (nonzero) multiple of 8. -/
def unpack4 (src : List Nat) (big_endian : Bool) : List Nat :=
  if src.length % 8 ≠ 0 ∨ src = [] then [] else unpack4Chunks src big_endian

/-- Loop body of `unpack5`: for every group of 8 bytes, emit the 12
quintets `(long >> (j*5)) & 0x1f`. -/
def unpack5Chunks : List Nat → Bool → List Nat
  | b0 :: b1 :: b2 :: b3 :: b4 :: b5 :: b6 :: b7 :: rest, big_endian =>
    let chunk := [b0, b1, b2, b3, b4, b5, b6, b7]
    let long := u64FromLeList (if big_endian then chunk.reverse else chunk)
    ((List.range 12).map fun j => (long >>> (j * 5)) &&& 0x1f)
      ++ unpack5Chunks rest big_endian
  | _, _ => []

/-- `unpack5` from src/unpack/nosimd.rs: unpacks 5-bit values from a
byte buffer into 16-bit values; empty result if the input length is not
a (nonzero) multiple of 8. -/
def unpack5 (src : List Nat) (big_endian : Bool) : List Nat :=
  if src.length % 8 ≠ 0 ∨ src = [] then [] else unpack5Chunks src big_endian

/-- Loop body of `swap_endianness_32bit`: reverse each 4-byte group. -/
def swap32Chunks : List Nat → List Nat
  | b0 :: b1 :: b2 :: b3 :: rest => b3 :: b2 :: b1 :: b0 :: swap32Chunks rest
  | _ => []

/-- `swap_endianness_32bit` from src/unpack/nosimd.rs: swaps the byte
order of each 4-byte word; empty result if the input length is not a
(nonzero) multiple of 4. -/
def swap_endianness_32bit (src : List Nat) : List Nat :=
  if src.length % 4 ≠ 0 ∨ src = [] then [] else swap32Chunks src

/-- Loop body of `swap_endianness_64bit`: reverse each 8-byte group. -/
def swap64Chunks : List Nat → List Nat
  | b0 :: b1 :: b2 :: b3 :: b4 :: b5 :: b6 :: b7 :: rest =>
    b7 :: b6 :: b5 :: b4 :: b3 :: b2 :: b1 :: b0 :: swap64Chunks rest
  | _ => []

/-- `swap_endianness_64bit` from src/unpack/nosimd.rs: swaps the byte
order of each 8-byte word; empty result if the input length is not a
(nonzero) multiple of 8. -/
def swap_endianness_64bit (src : List Nat) : List Nat :=
  if src.length % 8 ≠ 0 ∨ src = [] then [] else swap64Chunks src

/-- The 64-bit word a claim speaks about: bytes `8*w … 8*w+7` of the
buffer, interpreted little-endian, with the per-word byte reversal
applied first when `big_endian` is set. -/
def wordAt (src : List Nat) (big_endian : Bool) (w : Nat) : Nat :=
  let chunk := (src.drop (8 * w)).take 8
  u64FromLeList (if big_endian then chunk.reverse else chunk)

/-! ### Shape lemmas about byte buffers -/

theorem exists_cons4 (B : List Nat) (h : 4 ≤ B.length) :
    ∃ b0 b1 b2 b3 rest, B = b0 :: b1 :: b2 :: b3 :: rest := by
  rcases B with _ | ⟨b0, B⟩
  · simp only [List.length_nil] at h; omega
  rcases B with _ | ⟨b1, B⟩
  · simp only [List.length_cons, List.length_nil] at h; omega
  rcases B with _ | ⟨b2, B⟩
  · simp only [List.length_cons, List.length_nil] at h; omega
  rcases B with _ | ⟨b3, B⟩
  · simp only [List.length_cons, List.length_nil] at h; omega
  exact ⟨b0, b1, b2, b3, B, rfl⟩

theorem exists_cons8 (B : List Nat) (h : 8 ≤ B.length) :
    ∃ b0 b1 b2 b3 b4 b5 b6 b7 rest,
      B = b0 :: b1 :: b2 :: b3 :: b4 :: b5 :: b6 :: b7 :: rest := by
  obtain ⟨b0, b1, b2, b3, B, rfl⟩ := exists_cons4 B (by omega)
  have h4 : 4 ≤ B.length := by
    simp only [List.length_cons] at h; omega
  obtain ⟨b4, b5, b6, b7, rest, rfl⟩ := exists_cons4 B h4
  exact ⟨b0, b1, b2, b3, b4, b5, b6, b7, rest, rfl⟩

theorem unpack4Chunks_length : ∀ (k : Nat) (B : List Nat), B.length = 8 * k →
    ∀ E, (unpack4Chunks B E).length = 2 * B.length
  | 0, B, h, E => by
    have hB : B = [] := List.eq_nil_of_length_eq_zero (by omega)
    subst hB; rfl
  | k + 1, B, h, E => by
    obtain ⟨b0, b1, b2, b3, b4, b5, b6, b7, rest, rfl⟩ :=
      exists_cons8 B (by omega)
    have hr : rest.length = 8 * k := by
      simp only [List.length_cons] at h; omega
    simp only [unpack4Chunks, List.length_append, List.length_map,
      List.length_range, List.length_cons,
      unpack4Chunks_length k rest hr E]
    omega

theorem unpack5Chunks_length : ∀ (k : Nat) (B : List Nat), B.length = 8 * k →
    ∀ E, (unpack5Chunks B E).length = B.length / 8 * 12
  | 0, B, h, E => by
    have hB : B = [] := List.eq_nil_of_length_eq_zero (by omega)
    subst hB; rfl
  | k + 1, B, h, E => by
    obtain ⟨b0, b1, b2, b3, b4, b5, b6, b7, rest, rfl⟩ :=
      exists_cons8 B (by omega)
    have hr : rest.length = 8 * k := by
      simp only [List.length_cons] at h; omega
    simp only [unpack5Chunks, List.length_append, List.length_map,
      List.length_range, List.length_cons,
      unpack5Chunks_length k rest hr E, hr]
    omega

theorem unpack4_length (B : List Nat) (E : Bool) (h : B.length % 8 = 0) :
    (unpack4 B E).length = 2 * B.length := by
  by_cases hB : B = []
  · subst hB; rfl
  · rw [unpack4, if_neg (by simp [h, hB])]
    exact unpack4Chunks_length (B.length / 8) B (by omega) E

theorem unpack5_length (B : List Nat) (E : Bool) (h : B.length % 8 = 0) :
    (unpack5 B E).length = B.length / 8 * 12 := by
  by_cases hB : B = []
  · subst hB; rfl
  · rw [unpack5, if_neg (by simp [h, hB])]
    exact unpack5Chunks_length (B.length / 8) B (by omega) E

theorem wordAt_cons8 (b0 b1 b2 b3 b4 b5 b6 b7 : Nat) (rest : List Nat)
    (E : Bool) (w : Nat) :
    wordAt (b0 :: b1 :: b2 :: b3 :: b4 :: b5 :: b6 :: b7 :: rest) E (w + 1) =
      wordAt rest E w := by
  have hdrop : (b0 :: b1 :: b2 :: b3 :: b4 :: b5 :: b6 :: b7 :: rest).drop
      (8 * (w + 1)) = rest.drop (8 * w) := by
    have h8 : 8 * (w + 1) = 8 + 8 * w := by ring
    rw [h8, ← List.drop_drop]
    rfl
  simp only [wordAt, hdrop]

theorem unpack4Chunks_get (E : Bool) : ∀ (w : Nat) (B : List Nat) (j : Nat),
    8 * w + 8 ≤ B.length → j < 16 →
    (unpack4Chunks B E).get? (w * 16 + j) =
      some ((wordAt B E w >>> (j * 4)) &&& 0x0f)
  | 0, B, j, hw, hj => by
    obtain ⟨b0, b1, b2, b3, b4, b5, b6, b7, rest, rfl⟩ :=
      exists_cons8 B (by omega)
    rw [unpack4Chunks]
    rw [List.get?_append (by simpa using hj)]
    rw [List.get?_map, List.get?_range (by simpa using hj)]
    simp [wordAt]
  | w + 1, B, j, hw, hj => by
    obtain ⟨b0, b1, b2, b3, b4, b5, b6, b7, rest, rfl⟩ :=
      exists_cons8 B (by omega)
    have hrest : 8 * w + 8 ≤ rest.length := by
      simp only [List.length_cons] at hw; omega
    rw [unpack4Chunks]
    rw [List.get?_append_right (by simp; omega)]
    have hidx : (w + 1) * 16 + j - (List.length ((List.range 16).map
        fun j => (u64FromLeList (if E then
          [b0, b1, b2, b3, b4, b5, b6, b7].reverse
          else [b0, b1, b2, b3, b4, b5, b6, b7]) >>> (j * 4)) &&& 0x0f)) =
        w * 16 + j := by
      simp only [List.length_map, List.length_range]; omega
    rw [hidx, unpack4Chunks_get E w rest j hrest hj, wordAt_cons8]

theorem unpack5Chunks_get (E : Bool) : ∀ (w : Nat) (B : List Nat) (j : Nat),
    8 * w + 8 ≤ B.length → j < 12 →
    (unpack5Chunks B E).get? (w * 12 + j) =
      some ((wordAt B E w >>> (j * 5)) &&& 0x1f)
  | 0, B, j, hw, hj => by
    obtain ⟨b0, b1, b2, b3, b4, b5, b6, b7, rest, rfl⟩ :=
      exists_cons8 B (by omega)
    rw [unpack5Chunks]
    rw [List.get?_append (by simpa using hj)]
    rw [List.get?_map, List.get?_range (by simpa using hj)]
    simp [wordAt]
  | w + 1, B, j, hw, hj => by
    obtain ⟨b0, b1, b2, b3, b4, b5, b6, b7, rest, rfl⟩ :=
      exists_cons8 B (by omega)
    have hrest : 8 * w + 8 ≤ rest.length := by
      simp only [List.length_cons] at hw; omega
    rw [unpack5Chunks]
    rw [List.get?_append_right (by simp; omega)]
    have hidx : (w + 1) * 12 + j - (List.length ((List.range 12).map
        fun j => (u64FromLeList (if E then
          [b0, b1, b2, b3, b4, b5, b6, b7].reverse
          else [b0, b1, b2, b3, b4, b5, b6, b7]) >>> (j * 5)) &&& 0x1f)) =
        w * 12 + j := by
      simp only [List.length_map, List.length_range]; omega
    rw [hidx, unpack5Chunks_get E w rest j hrest hj, wordAt_cons8]

theorem swap32Chunks_length : ∀ (k : Nat) (B : List Nat), B.length = 4 * k →
    (swap32Chunks B).length = B.length
  | 0, B, h => by
    have hB : B = [] := List.eq_nil_of_length_eq_zero (by omega)
    subst hB; rfl
  | k + 1, B, h => by
    obtain ⟨b0, b1, b2, b3, rest, rfl⟩ := exists_cons4 B (by omega)
    have hr : rest.length = 4 * k := by
      simp only [List.length_cons] at h; omega
    simp only [swap32Chunks, List.length_cons, swap32Chunks_length k rest hr]

theorem swap64Chunks_length : ∀ (k : Nat) (B : List Nat), B.length = 8 * k →
    (swap64Chunks B).length = B.length
  | 0, B, h => by
    have hB : B = [] := List.eq_nil_of_length_eq_zero (by omega)
    subst hB; rfl
  | k + 1, B, h => by
    obtain ⟨b0, b1, b2, b3, b4, b5, b6, b7, rest, rfl⟩ :=
      exists_cons8 B (by omega)
    have hr : rest.length = 8 * k := by
      simp only [List.length_cons] at h; omega
    simp only [swap64Chunks, List.length_cons, swap64Chunks_length k rest hr]

theorem swap32Chunks_inv : ∀ (k : Nat) (B : List Nat), B.length = 4 * k →
    swap32Chunks (swap32Chunks B) = B
  | 0, B, h => by
    have hB : B = [] := List.eq_nil_of_length_eq_zero (by omega)
    subst hB; rfl
  | k + 1, B, h => by
    obtain ⟨b0, b1, b2, b3, rest, rfl⟩ := exists_cons4 B (by omega)
    have hr : rest.length = 4 * k := by
      simp only [List.length_cons] at h; omega
    simp only [swap32Chunks, swap32Chunks_inv k rest hr]

theorem swap64Chunks_inv : ∀ (k : Nat) (B : List Nat), B.length = 8 * k →
    swap64Chunks (swap64Chunks B) = B
  | 0, B, h => by
    have hB : B = [] := List.eq_nil_of_length_eq_zero (by omega)
    subst hB; rfl
  | k + 1, B, h => by
    obtain ⟨b0, b1, b2, b3, b4, b5, b6, b7, rest, rfl⟩ :=
      exists_cons8 B (by omega)
    have hr : rest.length = 8 * k := by
      simp only [List.length_cons] at h; omega
    simp only [swap64Chunks, swap64Chunks_inv k rest hr]

/-- C9 counterexample: the claim quantifies over every byte buffer, but
for the one-byte buffer `[0]` (length not a multiple of 4) the code
returns the empty buffer from both swaps, so the double swap is not the
identity there. -/
theorem swap_double_cex :
    ¬ (swap_endianness_32bit (swap_endianness_32bit [0]) = [0] ∧
       swap_endianness_64bit (swap_endianness_64bit [0]) = [0]) := by
  decide

/-- C9 (amended): for every byte buffer whose length is a multiple of 4
(resp. 8), applying `swap_endianness_32bit` (resp.
`swap_endianness_64bit`) twice is the identity; for any other length the
swap returns the empty buffer (so the double swap is not the identity
on such buffers). -/
theorem swap_double_involution (B : List Nat) :
    (B.length % 4 = 0 → swap_endianness_32bit (swap_endianness_32bit B) = B) ∧
    (B.length % 4 ≠ 0 → swap_endianness_32bit B = []) ∧
    (B.length % 8 = 0 → swap_endianness_64bit (swap_endianness_64bit B) = B) ∧
    (B.length % 8 ≠ 0 → swap_endianness_64bit B = []) := by
  refine ⟨?_, ?_, ?_, ?_⟩
  · intro h4
    by_cases hB : B = []
    · subst hB; rfl
    · have h1 : swap_endianness_32bit B = swap32Chunks B := by
        rw [swap_endianness_32bit, if_neg (by simp [h4, hB])]
      have hlen : (swap32Chunks B).length = B.length :=
        swap32Chunks_length (B.length / 4) B (by omega)
      have hne2 : swap32Chunks B ≠ [] := by
        intro hc
        have := congrArg List.length hc
        simp only [hlen, List.length_nil] at this
        exact hB (List.eq_nil_of_length_eq_zero this)
      rw [h1, swap_endianness_32bit, if_neg (by simp [hlen, h4, hne2])]
      exact swap32Chunks_inv (B.length / 4) B (by omega)
  · intro h4
    rw [swap_endianness_32bit, if_pos (Or.inl h4)]
  · intro h8
    by_cases hB : B = []
    · subst hB; rfl
    · have h1 : swap_endianness_64bit B = swap64Chunks B := by
        rw [swap_endianness_64bit, if_neg (by simp [h8, hB])]
      have hlen : (swap64Chunks B).length = B.length :=
        swap64Chunks_length (B.length / 8) B (by omega)
      have hne2 : swap64Chunks B ≠ [] := by
        intro hc
        have := congrArg List.length hc
        simp only [hlen, List.length_nil] at this
        exact hB (List.eq_nil_of_length_eq_zero this)
      rw [h1, swap_endianness_64bit, if_neg (by simp [hlen, h8, hne2])]
      exact swap64Chunks_inv (B.length / 8) B (by omega)
  · intro h8
    rw [swap_endianness_64bit, if_pos (Or.inl h8)]

/-- Witness for the amended C9 theorem at concrete buffers. -/
theorem swap_double_involution_witness :
    swap_endianness_32bit (swap_endianness_32bit [1, 2, 3, 4]) = [1, 2, 3, 4] ∧
    swap_endianness_64bit [1, 2, 3] = [] :=
  ⟨(swap_double_involution [1, 2, 3, 4]).1 (by decide),
   (swap_double_involution [1, 2, 3]).2.2.2 (by decide)⟩

/-- C4: for every byte buffer whose length is a nonzero multiple of 8
and each endianness flag, `unpack4` returns exactly `2·|B|` values, each
in `[0, 15]`, and output `j` of 64-bit word `w` (interpreted
little-endian, bytes reversed per word first when big-endian) equals
`(word >>> (4*j)) &&& 0x0f`. -/
theorem unpack4_bit_schedule (B : List Nat) (E : Bool)
    (h8 : B.length % 8 = 0) (hne : B ≠ []) :
    (unpack4 B E).length = 2 * B.length ∧
    (∀ v ∈ unpack4 B E, v < 16) ∧
    (∀ w j, w < B.length / 8 → j < 16 →
      (unpack4 B E).get? (w * 16 + j) =
        some ((wordAt B E w >>> (j * 4)) &&& 0x0f)) := by
  have hun : unpack4 B E = unpack4Chunks B E := by
    rw [unpack4, if_neg (by simp [h8, hne])]
  refine ⟨unpack4_length B E h8, ?_, ?_⟩
  · intro v hv
    obtain ⟨n, hn⟩ := List.mem_iff_get?.1 hv
    have hlen : n < (unpack4 B E).length := by
      by_contra hc
      rw [List.get?_eq_none.2 (by omega)] at hn
      exact Option.noConfusion hn
    rw [unpack4_length B E h8] at hlen
    have hdecomp : n = n / 16 * 16 + n % 16 := by omega
    have hw : n / 16 < B.length / 8 := by omega
    have hj : n % 16 < 16 := by omega
    rw [hun] at hn
    rw [hdecomp, unpack4Chunks_get E (n / 16) B (n % 16) (by omega) hj] at hn
    have hv16 : v = (wordAt B E (n / 16) >>> (n % 16 * 4)) &&& 0x0f :=
      (Option.some_inj.mp hn).symm
    calc v ≤ 0x0f := hv16 ▸ Nat.and_le_right
    _ < 16 := by omega
  · intro w j hw hj
    rw [hun]
    exact unpack4Chunks_get E w B j (by omega) hj

/-- Witness for C4 at the spec's scenario-2 little-endian word. -/
theorem unpack4_bit_schedule_witness :
    (unpack4 [0x10, 0x32, 0x54, 0x76, 0x98, 0xba, 0xdc, 0xfe] false).length
      = 16 ∧
    (unpack4 [0x10, 0x32, 0x54, 0x76, 0x98, 0xba, 0xdc, 0xfe] false).get? 5
      = some 5 := by
  have h := unpack4_bit_schedule
    [0x10, 0x32, 0x54, 0x76, 0x98, 0xba, 0xdc, 0xfe] false
    (by decide) (by decide)
  refine ⟨by simpa using h.1, ?_⟩
  have h5 := h.2.2 0 5 (by decide) (by decide)
  exact h5.trans (by decide)

/-- C3: for every byte buffer whose length is a nonzero multiple of 8
and each endianness flag, `unpack5` returns exactly `(|B|/8)·12`
values, each in `[0, 31]`, and output `j` of 64-bit word `w`
(interpreted little-endian, bytes reversed per word first when
big-endian) equals `(word >>> (5*j)) &&& 0x1f`, which is the spec's
a..l bit schedule. -/
theorem unpack5_bit_schedule (B : List Nat) (E : Bool)
    (h8 : B.length % 8 = 0) (hne : B ≠ []) :
    (unpack5 B E).length = B.length / 8 * 12 ∧
    (∀ v ∈ unpack5 B E, v < 32) ∧
    (∀ w j, w < B.length / 8 → j < 12 →
      (unpack5 B E).get? (w * 12 + j) =
        some ((wordAt B E w >>> (j * 5)) &&& 0x1f)) := by
  have hun : unpack5 B E = unpack5Chunks B E := by
    rw [unpack5, if_neg (by simp [h8, hne])]
  refine ⟨unpack5_length B E h8, ?_, ?_⟩
  · intro v hv
    obtain ⟨n, hn⟩ := List.mem_iff_get?.1 hv
    have hlen : n < (unpack5 B E).length := by
      by_contra hc
      rw [List.get?_eq_none.2 (by omega)] at hn
      exact Option.noConfusion hn
    rw [unpack5_length B E h8] at hlen
    have hdecomp : n = n / 12 * 12 + n % 12 := by omega
    have hw : n / 12 < B.length / 8 := by omega
    have hj : n % 12 < 12 := by omega
    rw [hun] at hn
    rw [hdecomp, unpack5Chunks_get E (n / 12) B (n % 12) (by omega) hj] at hn
    have hv32 : v = (wordAt B E (n / 12) >>> (n % 12 * 5)) &&& 0x1f :=
      (Option.some_inj.mp hn).symm
    calc v ≤ 0x1f := hv32 ▸ Nat.and_le_right
    _ < 32 := by omega
  · intro w j hw hj
    rw [hun]
    exact unpack5Chunks_get E w B j (by omega) hj

/-- Witness for C3 at a concrete 8-byte word. -/
theorem unpack5_bit_schedule_witness :
    (unpack5 [1, 2, 3, 4, 5, 6, 7, 8] false).length = 12 ∧
    (unpack5 [1, 2, 3, 4, 5, 6, 7, 8] false).get? 0 = some 1 := by
  have h := unpack5_bit_schedule [1, 2, 3, 4, 5, 6, 7, 8] false
    (by decide) (by decide)
  refine ⟨by simpa using h.1, ?_⟩
  have h0 := h.2.2 0 0 (by decide) (by decide)
  exact h0.trans (by decide)

/-! ### src/nbt/owned.rs: LongArray -/

/-- `LongArray` from src/nbt/owned.rs: raw backing bytes plus the flag
recording whether they are currently in the machine's native byte order
(the model fixes a little-endian machine; directly after parsing a
big-endian file the flag is `false`). -/
structure LongArray where
  native_endian : Bool
  inner : List Nat
deriving DecidableEq, Repr

/-- `LongArray::len`: number of complete 64-bit words. -/
def LongArray.len (self : LongArray) : Nat :=
  self.inner.length / 8

/-- `LongArray::big_endian` on a little-endian machine:
`!self.native_endian`. -/
def LongArray.big_endian (self : LongArray) : Bool :=
  !self.native_endian

/-- `LongArray::get`: reads word `index` as `i64`, using the native
(little-endian) byte order when `native_endian` holds and
`i64::from_be_bytes` otherwise; `none` past the end. -/
def LongArray.get (self : LongArray) (index : Nat) : Option Int :=
  let i := index * 8
  if i + 8 > self.inner.length then none
  else
    let chunk := (self.inner.drop i).take 8
    if self.native_endian then some (toSigned 64 (u64FromLeList chunk))
    else some (toSigned 64 (u64FromLeList chunk.reverse))

/-- Split a byte list into complete 8-byte groups, dropping a trailing
partial group (models reinterpreting a byte slice as `len/8` longs). -/
def chunks8 : List Nat → List (List Nat)
  | b0 :: b1 :: b2 :: b3 :: b4 :: b5 :: b6 :: b7 :: rest =>
    [b0, b1, b2, b3, b4, b5, b6, b7] :: chunks8 rest
  | _ => []

/-- `LongArray::as_slice`: the words as `i64` values in native order
(swapping the stored bytes first when they are not native; reading a
big-endian group equals reading the reversed group little-endian). -/
def LongArray.as_slice (self : LongArray) : List Int :=
  (chunks8 self.inner).map fun chunk =>
    toSigned 64 (u64FromLeList (if self.native_endian then chunk
      else chunk.reverse))

/-! ### src/chunk_format.rs: BlockStates -/

/-- `BlockStatePalette` from src/chunk_format.rs. -/
structure BlockStatePalette where
  name : String
  properties : Option (List (String × String))
deriving DecidableEq, Repr

/-- `BlockStates` from src/chunk_format.rs: palette plus optional
packed index data. -/
structure BlockStates where
  palette : List BlockStatePalette
  data : Option LongArray
deriving DecidableEq, Repr

/-- Fuel-driven helper computing the bit length of a natural number;
the fuel only forces structural termination and is irrelevant once it
is at least the argument. -/
def bitLengthAux : Nat → Nat → Nat
  | _, 0 => 0
  | 0, _ + 1 => 0
  | fuel + 1, n + 1 => bitLengthAux fuel ((n + 1) / 2) + 1

/-- Bit length of a natural number: 0 for 0, otherwise
`⌊log2 x⌋ + 1`.  Equals `usize::BITS - x.leading_zeros()` for every
64-bit `usize` value. -/
def bitLength (x : Nat) : Nat :=
  bitLengthAux x x

/-- `BlockStates::bits_per_block`:
`(usize::BITS - (palette.len() - 1).leading_zeros()).clamp(4, 12)`.
`Nat` subtraction saturates at 0 where the Rust `usize` subtraction
would underflow (palette empty, a case outside every claim and one
that panics in a debug build). -/
def BlockStates.bits_per_block (self : BlockStates) : Nat :=
  min (max (bitLength (self.palette.length - 1)) 4) 12

/-- `BlockStates::block` from src/chunk_format.rs; `none` models the
panics (`unwrap` of a missing word, palette indexing out of bounds). -/
def BlockStates.block (self : BlockStates) (x y z : Nat) :
    Option BlockStatePalette :=
  match self.data with
  | some data =>
    let packed_index := y * 16 * 16 + z * 16 + x
    let bits_per_block := self.bits_per_block
    let blocks_per_long := 64 / bits_per_block
    let data_index := packed_index / blocks_per_long
    let long_index := packed_index % blocks_per_long
    match data.get data_index with
    | none => none
    | some long =>
      let palette_index :=
        (u64OfI64 long >>> (long_index * bits_per_block)) &&&
          ((1 <<< bits_per_block) - 1)
      self.palette.get? palette_index
  | none => self.palette.get? 0

/-- `BlockStates::unpack_data` from src/chunk_format.rs.  The scalar
loop's arithmetic shift right of an `i64` by `i * bits_per_block` is
floor division by that power of two, and the masking with
`(1 << bits_per_block) - 1` is `emod` by `2 ^ bits_per_block`; the
result is non-negative, so the `as u16` cast is `Int.toNat`. -/
def BlockStates.unpack_data (self : BlockStates) : List Nat :=
  let bits_per_block := self.bits_per_block
  match self.data with
  | some data =>
    if self.palette.length ≤ 32 then
      if self.palette.length ≤ 16 then unpack4 data.inner data.big_endian
      else unpack5 data.inner data.big_endian
    else
      let blocks_per_long := 64 / bits_per_block
      (data.as_slice.map fun long =>
        (List.range blocks_per_long).map fun i =>
          ((Int.fdiv long (2 ^ (i * bits_per_block))) %
            ((2:Int) ^ bits_per_block)).toNat).join
  | none => List.replicate (16 * 16 * 16) 0

/-! ### Arithmetic lemmas backing the block-state claims -/

theorem bitLengthAux_le_iff : ∀ (fuel n : Nat), n ≤ fuel → ∀ k,
    (bitLengthAux fuel n ≤ k ↔ n < 2 ^ k)
  | fuel, 0, _, k => by
    rcases fuel with _ | fuel <;>
      simp [bitLengthAux, Nat.pos_pow_of_pos, Nat.pos_of_ne_zero,
        Nat.two_pow_pos]
  | 0, n + 1, hn, k => by omega
  | fuel + 1, n + 1, hn, k => by
    rw [bitLengthAux]
    have hhalf : (n + 1) / 2 ≤ fuel := by omega
    have ih := bitLengthAux_le_iff fuel ((n + 1) / 2) hhalf (k - 1)
    rcases Nat.eq_zero_or_pos k with hk | hk
    · subst hk
      simp only [pow_zero]
      omega
    · have hpow : 2 ^ k = 2 * 2 ^ (k - 1) := by
        rw [← pow_succ']
        congr 1
        omega
      omega

theorem bitLength_le_iff (x k : Nat) : bitLength x ≤ k ↔ x < 2 ^ k :=
  bitLengthAux_le_iff x x (Nat.le_refl x) k

theorem bitLength_pred_eq_clog (n : Nat) (hn : 1 ≤ n) :
    bitLength (n - 1) = Nat.clog 2 n := by
  apply Nat.le_antisymm
  · rw [bitLength_le_iff]
    have h1 : n ≤ 2 ^ Nat.clog 2 n := Nat.le_pow_clog (by omega) n
    omega
  · rw [← Nat.le_pow_iff_clog_le (by omega)]
    have h2 : n - 1 < 2 ^ bitLength (n - 1) :=
      (bitLength_le_iff (n - 1) (bitLength (n - 1))).mp (Nat.le_refl _)
    omega

theorem u64FromLeList_lt : ∀ (l : List Nat), (∀ b ∈ l, b < 256) →
    u64FromLeList l < 256 ^ l.length
  | [], _ => by simp [u64FromLeList]
  | b :: rest, h => by
    have hb : b < 256 := h b (by simp)
    have hr : u64FromLeList rest < 256 ^ rest.length :=
      u64FromLeList_lt rest fun x hx => h x (by simp [hx])
    simp only [u64FromLeList, List.length_cons, pow_succ]
    calc b + 256 * u64FromLeList rest
        ≤ 255 + 256 * (256 ^ rest.length - 1) := by
          have : u64FromLeList rest ≤ 256 ^ rest.length - 1 := by omega
          omega
    _ < 256 ^ rest.length * 256 := by
          have hpos : 1 ≤ 256 ^ rest.length := Nat.one_le_two_pow.trans
            (Nat.pow_le_pow_left (by omega) rest.length)
          omega

theorem u64OfI64_toSigned (u : Nat) (h : u < 2 ^ 64) :
    u64OfI64 (toSigned 64 u) = u := by
  have h2 : u < 18446744073709551616 := by norm_num at h; exact h
  unfold u64OfI64 toSigned
  norm_num
  split <;> omega

/-- C5: for every `BlockStates` with palette size in `1..=4096` and
section-relative coordinates below 16: `bits_per_block` is
`max(4, ⌈log2 |palette|⌉)` capped at 12; with absent data, `block`
returns palette entry 0; with data stored in big-endian form (the state
after parsing), `block x y z` returns the palette entry at index
`(word >>> (slot·bpb)) &&& ((1 <<< bpb) - 1)`, where `word` is word
`linear / (64/bpb)` of the data re-read little-endian after byte
reversal, `linear = y·256 + z·16 + x` and `slot = linear % (64/bpb)`,
whenever that word exists and the index is inside the palette. -/
theorem blockStates_block_spec (bs : BlockStates) (x y z : Nat)
    (hn1 : 1 ≤ bs.palette.length) (hn2 : bs.palette.length ≤ 4096)
    (hx : x < 16) (hy : y < 16) (hz : z < 16) :
    bs.bits_per_block = min (max (Nat.clog 2 bs.palette.length) 4) 12 ∧
    (bs.data = none → bs.block x y z = bs.palette.get? 0) ∧
    (∀ d, bs.data = some d → d.native_endian = false →
      (∀ b ∈ d.inner, b < 256) →
      ∀ wi, wi = (y * 256 + z * 16 + x) / (64 / bs.bits_per_block) →
      8 * wi + 8 ≤ d.inner.length →
      ∀ idx, idx =
        (u64FromLeList (((d.inner.drop (8 * wi)).take 8).reverse) >>>
          ((y * 256 + z * 16 + x) % (64 / bs.bits_per_block) *
            bs.bits_per_block)) &&&
          ((1 <<< bs.bits_per_block) - 1) →
      idx < bs.palette.length →
      bs.block x y z = bs.palette.get? idx) := by
  refine ⟨?_, ?_, ?_⟩
  · rw [BlockStates.bits_per_block, bitLength_pred_eq_clog bs.palette.length hn1]
  · intro hd
    rw [BlockStates.block, hd]
  · intro d hd hnat hbytes wi hwi hwidth idx hidx hlt
    rw [BlockStates.block, hd]
    simp only
    have hlin : y * 16 * 16 + z * 16 + x = y * 256 + z * 16 + x := by ring
    rw [hlin]
    have hget : d.get ((y * 256 + z * 16 + x) / (64 / bs.bits_per_block)) =
        some (toSigned 64
          (u64FromLeList (((d.inner.drop (8 * wi)).take 8).reverse))) := by
      rw [LongArray.get]
      rw [if_neg (by omega)]
      rw [hnat]
      simp only [Bool.false_eq_true, if_false]
      rw [← hwi]
      have : wi * 8 = 8 * wi := by ring
      rw [this]
    rw [hget]
    simp only
    have hchunklen : (((d.inner.drop (8 * wi)).take 8).reverse).length = 8 := by
      simp only [List.length_reverse, List.length_take, List.length_drop]
      omega
    have hword : u64OfI64 (toSigned 64
        (u64FromLeList (((d.inner.drop (8 * wi)).take 8).reverse))) =
        u64FromLeList (((d.inner.drop (8 * wi)).take 8).reverse) := by
      apply u64OfI64_toSigned
      have hbound := u64FromLeList_lt
        (((d.inner.drop (8 * wi)).take 8).reverse)
        (fun b hb => hbytes b
          (List.mem_of_mem_drop (List.mem_of_mem_take
            (List.mem_reverse.mp hb))))
      rw [hchunklen] at hbound
      calc u64FromLeList (((d.inner.drop (8 * wi)).take 8).reverse)
          < 256 ^ 8 := hbound
      _ = 2 ^ 64 := by norm_num
    rw [hword, ← hidx]

/-- Witness for C5: a two-entry palette with one stored big-endian word
whose slot 1 holds palette index 1. -/
theorem blockStates_block_spec_witness :
    BlockStates.block
      ⟨[⟨"a", none⟩, ⟨"b", none⟩],
        some ⟨false, [0, 0, 0, 0, 0, 0, 0, 0x10]⟩⟩ 1 0 0 =
      some ⟨"b", none⟩ := by
  have h := blockStates_block_spec
    ⟨[⟨"a", none⟩, ⟨"b", none⟩],
      some ⟨false, [0, 0, 0, 0, 0, 0, 0, 0x10]⟩⟩ 1 0 0
    (by decide) (by decide) (by decide) (by decide) (by decide)
  have h3 := h.2.2 ⟨false, [0, 0, 0, 0, 0, 0, 0, 0x10]⟩ rfl rfl (by decide)
    0 (by decide) (by decide) 1 (by decide) (by decide)
  exact h3.trans (by decide)

theorem chunks8_length : ∀ (k : Nat) (l : List Nat), l.length = 8 * k →
    (chunks8 l).length = k
  | 0, l, h => by
    have hl : l = [] := List.eq_nil_of_length_eq_zero (by omega)
    subst hl; rfl
  | k + 1, l, h => by
    obtain ⟨b0, b1, b2, b3, b4, b5, b6, b7, rest, rfl⟩ :=
      exists_cons8 l (by omega)
    have hr : rest.length = 8 * k := by
      simp only [List.length_cons] at h; omega
    simp only [chunks8, List.length_cons, chunks8_length k rest hr]

theorem join_map_length {α β : Type} (f : α → List β) (c : Nat) :
    ∀ (l : List α), (∀ a ∈ l, (f a).length = c) →
    ((l.map f).join).length = l.length * c
  | [], _ => by simp
  | a :: rest, h => by
    have ha : (f a).length = c := h a (by simp)
    have hr := join_map_length f c rest fun x hx => h x (by simp [hx])
    simp only [List.map_cons, List.join_cons, List.length_append, ha, hr,
      List.length_cons]
    ring

theorem bits_per_block_eq_four_iff (bs : BlockStates)
    (hn : 1 ≤ bs.palette.length) :
    bs.bits_per_block = 4 ↔ bs.palette.length ≤ 16 := by
  have h16 := bitLength_le_iff (bs.palette.length - 1) 4
  rw [BlockStates.bits_per_block]
  norm_num at h16
  omega

theorem bits_per_block_eq_five_iff (bs : BlockStates)
    (hn : 1 ≤ bs.palette.length) :
    bs.bits_per_block = 5 ↔
      17 ≤ bs.palette.length ∧ bs.palette.length ≤ 32 := by
  have h16 := bitLength_le_iff (bs.palette.length - 1) 4
  have h32 := bitLength_le_iff (bs.palette.length - 1) 5
  rw [BlockStates.bits_per_block]
  norm_num at h16 h32
  omega

/-- C6 counterexample: a palette of 17 entries has `bits_per_block = 5`
and `blocks_per_word = 12`, so data sized `⌈4096/12⌉ = 342` words
(2736 bytes) bulk-unpacks to `342·12 = 4104` entries — not the 4096 the
claim states. -/
theorem unpack_data_cex :
    (BlockStates.unpack_data
      ⟨List.replicate 17 ⟨"a", none⟩,
        some ⟨false, List.replicate 2736 0⟩⟩).length ≠ 4096 := by
  have hp : (List.replicate 17 (⟨"a", none⟩ : BlockStatePalette)).length
      = 17 := by simp
  have hlen : (BlockStates.unpack_data
      ⟨List.replicate 17 ⟨"a", none⟩,
        some ⟨false, List.replicate 2736 0⟩⟩).length = 4104 := by
    rw [BlockStates.unpack_data]
    simp only [hp]
    rw [if_pos (by omega), if_neg (by omega)]
    have h5 := unpack5_length (List.replicate 2736 0)
      (LongArray.big_endian ⟨false, List.replicate 2736 0⟩)
      (by rw [List.length_replicate])
    rw [List.length_replicate] at h5
    exact h5.trans (by norm_num)
  omega

/-- C6 (amended): `unpack_data` returns 4096 zeros when the data array
is absent; when data is present it dispatches to the `unpack4` bulk
path exactly when `bits_per_block = 4` and to the `unpack5` bulk path
exactly when `bits_per_block = 5`, and for data of `w` whole 64-bit
words it returns `w · ⌊64 / bits_per_block⌋` entries — which is 4096
for data sized `⌈4096 / blocks_per_word⌉` words only when
`blocks_per_word` divides 4096, and more than 4096 otherwise
(e.g. 4104 when `bits_per_block = 5`). -/
theorem unpack_data_spec (bs : BlockStates)
    (hn1 : 1 ≤ bs.palette.length) (hn2 : bs.palette.length ≤ 4096) :
    (bs.data = none → bs.unpack_data = List.replicate 4096 0) ∧
    (∀ d, bs.data = some d → bs.bits_per_block = 4 →
      bs.unpack_data = unpack4 d.inner d.big_endian) ∧
    (∀ d, bs.data = some d → bs.bits_per_block = 5 →
      bs.unpack_data = unpack5 d.inner d.big_endian) ∧
    (∀ d, bs.data = some d → d.inner.length % 8 = 0 →
      bs.unpack_data.length =
        d.inner.length / 8 * (64 / bs.bits_per_block)) := by
  refine ⟨?_, ?_, ?_, ?_⟩
  · intro hd
    rw [BlockStates.unpack_data, hd]
  · intro d hd h4
    have h16 := (bits_per_block_eq_four_iff bs hn1).mp h4
    rw [BlockStates.unpack_data, hd]
    simp only
    rw [if_pos (by omega), if_pos h16]
  · intro d hd h5
    obtain ⟨h17, h32⟩ := (bits_per_block_eq_five_iff bs hn1).mp h5
    rw [BlockStates.unpack_data, hd]
    simp only
    rw [if_pos h32, if_neg (by omega)]
  · intro d hd h8
    rw [BlockStates.unpack_data, hd]
    simp only
    by_cases h32 : bs.palette.length ≤ 32
    · rw [if_pos h32]
      by_cases h16 : bs.palette.length ≤ 16
      · rw [if_pos h16]
        rw [unpack4_length d.inner d.big_endian h8]
        have hb : bs.bits_per_block = 4 :=
          (bits_per_block_eq_four_iff bs hn1).mpr h16
        rw [hb]
        omega
      · rw [if_neg h16]
        rw [unpack5_length d.inner d.big_endian h8]
        have hb : bs.bits_per_block = 5 :=
          (bits_per_block_eq_five_iff bs hn1).mpr ⟨by omega, h32⟩
        rw [hb]
    · rw [if_neg h32]
      have hslice : d.as_slice.length = d.inner.length / 8 := by
        rw [LongArray.as_slice, List.length_map]
        exact chunks8_length (d.inner.length / 8) d.inner (by omega)
      rw [join_map_length _ (64 / bs.bits_per_block) d.as_slice
        (fun a _ => by simp), hslice]

/-- Witness for the amended C6 theorem: one-entry palette without data
yields 4096 zeros. -/
theorem unpack_data_spec_witness :
    BlockStates.unpack_data ⟨[⟨"a", none⟩], none⟩ =
      List.replicate 4096 0 :=
  (unpack_data_spec ⟨[⟨"a", none⟩], none⟩ (by decide) (by decide)).1 rfl

/-! ### src/anvil.rs -/

/-- A seekable byte stream of known size backing a region file: the
`Read + Seek` capability `parse_chunk_at` needs. -/
structure RegionFile where
  size : Nat
  byteAt : Nat → Nat

/-- The bytes a successful `read_exact` of `n` bytes at `pos`
returns. -/
def readBytes (f : RegionFile) (pos n : Nat) : List Nat :=
  (List.range n).map fun i => f.byteAt (pos + i)

/-- Errors of the anvil reader: wrapped I/O errors, the "chunk not
present in region file" bail, and the "unknown compression type" bail
(`anyhow` models them as one error type; the payload text is not
modelled). -/
inductive AnvilError where
  | ioError
  | chunkAbsent
  | unknownCompression (kind : Nat)
deriving DecidableEq, Repr

/-- `read_exact` against the stream: fails with an I/O error when the
request passes the end of the file. -/
def readExact (f : RegionFile) (pos n : Nat) :
    Except AnvilError (List Nat) :=
  if pos + n ≤ f.size then Except.ok (readBytes f pos n)
  else Except.error AnvilError.ioError

/-- The framing decision `parse_chunk` reaches: which decompressor the
compressed payload is handed to (decompressors and the NBT decode are
external collaborators, out of the framing claims). -/
inductive ChunkDispatch where
  | gzip (compressed : List Nat)
  | zlib (compressed : List Nat)
  | raw (payload : List Nat)
  | lz4 (compressed : List Nat)
deriving DecidableEq, Repr

/-- `parse_chunk` from src/anvil.rs, reading at stream position `pos`:
reads the 5-byte header (u32 big-endian payload length and the
compression byte), then `length - 1` payload bytes, and dispatches on
the compression kind.  `none` models the panic of
`vec![0; length - 1]` when `length = 0` (usize underflow). -/
def parse_chunk (f : RegionFile) (pos : Nat) :
    Option (Except AnvilError ChunkDispatch) :=
  match readExact f pos 5 with
  | Except.error e => some (Except.error e)
  | Except.ok buf =>
    let length := beNat (buf.take 4)
    let compression_type := buf.getD 4 0
    if length = 0 then none
    else
      match readExact f (pos + 5) (length - 1) with
      | Except.error e => some (Except.error e)
      | Except.ok payload =>
        if compression_type = 1 then
          some (Except.ok (ChunkDispatch.gzip payload))
        else if compression_type = 2 then
          some (Except.ok (ChunkDispatch.zlib payload))
        else if compression_type = 3 then
          some (Except.ok (ChunkDispatch.raw payload))
        else if compression_type = 4 then
          some (Except.ok (ChunkDispatch.lz4 payload))
        else
          some (Except.error (AnvilError.unknownCompression
            compression_type))

/-- `parse_chunk_at` from src/anvil.rs: seeks to the location-table
entry of chunk (x, z), reads the 3-byte big-endian sector offset,
bails with the chunk-absent error when it is zero, otherwise seeks to
`offset · 4096` and runs `parse_chunk` there. -/
def parse_chunk_at (f : RegionFile) (x z : Nat) :
    Option (Except AnvilError ChunkDispatch) :=
  let location_offset := (z * 32 + x) * 4
  match readExact f location_offset 3 with
  | Except.error e => some (Except.error e)
  | Except.ok buf =>
    let location := beNat (0 :: buf)
    if location = 0 then some (Except.error AnvilError.chunkAbsent)
    else parse_chunk f (location * 4096)

/-- C7: for every region stream and chunk coordinates x, z in [0,32):
`parse_chunk_at` reads the 3-byte big-endian sector offset at byte
offset `(z·32 + x)·4` and fails with the chunk-absent error exactly
when it is zero; otherwise it continues at `offset·4096` with
`parse_chunk`, which (the chunk-absent error being unreachable there)
reads the big-endian payload length and the compression byte, reads
exactly `payload_length - 1` compressed bytes, and dispatches
compression 1 to gzip, 2 to zlib, 3 to raw and 4 to lz4, failing with
the unknown-compression error for every other compression value. -/
theorem parse_chunk_at_frames (f : RegionFile) (x z : Nat)
    (hx : x < 32) (hz : z < 32)
    (hloc : (z * 32 + x) * 4 + 3 ≤ f.size) :
    (beNat (readBytes f ((z * 32 + x) * 4) 3) = 0 →
      parse_chunk_at f x z = some (Except.error AnvilError.chunkAbsent)) ∧
    (beNat (readBytes f ((z * 32 + x) * 4) 3) ≠ 0 →
      parse_chunk_at f x z =
        parse_chunk f (beNat (readBytes f ((z * 32 + x) * 4) 3) * 4096)) ∧
    (∀ pos, parse_chunk f pos ≠
      some (Except.error AnvilError.chunkAbsent)) ∧
    (∀ pos L, pos + 5 ≤ f.size → L = beNat (readBytes f pos 4) →
      1 ≤ L → L < 2 ^ 31 → pos + 5 + (L - 1) ≤ f.size →
      parse_chunk f pos = some (
        if f.byteAt (pos + 4) = 1 then
          Except.ok (ChunkDispatch.gzip (readBytes f (pos + 5) (L - 1)))
        else if f.byteAt (pos + 4) = 2 then
          Except.ok (ChunkDispatch.zlib (readBytes f (pos + 5) (L - 1)))
        else if f.byteAt (pos + 4) = 3 then
          Except.ok (ChunkDispatch.raw (readBytes f (pos + 5) (L - 1)))
        else if f.byteAt (pos + 4) = 4 then
          Except.ok (ChunkDispatch.lz4 (readBytes f (pos + 5) (L - 1)))
        else
          Except.error (AnvilError.unknownCompression
            (f.byteAt (pos + 4))))) := by
  have hzero : ∀ l : List Nat, beNat (0 :: l) = beNat l := by
    intro l; rfl
  have hio : ∀ p n e, readExact f p n = Except.error e →
      e = AnvilError.ioError := by
    intro p n e h
    rw [readExact] at h
    split at h
    · exact Except.noConfusion h
    · injection h with h2
      exact h2.symm
  refine ⟨?_, ?_, ?_, ?_⟩
  · intro h0
    rw [parse_chunk_at]
    simp only [readExact, if_pos hloc]
    rw [hzero, if_pos h0]
  · intro h0
    rw [parse_chunk_at]
    simp only [readExact, if_pos hloc]
    rw [hzero, if_neg h0]
  · intro pos
    rw [parse_chunk]
    rcases hre : readExact f pos 5 with e | buf
    · have he : e = AnvilError.ioError := hio pos 5 e hre
      subst he
      simp
    · simp only
      by_cases hl : beNat (buf.take 4) = 0
      · rw [if_pos hl]
        simp
      · rw [if_neg hl]
        rcases hre2 : readExact f (pos + 5) (beNat (buf.take 4) - 1)
          with e2 | payload
        · have he2 : e2 = AnvilError.ioError := hio _ _ e2 hre2
          subst he2
          simp
        · simp only
          split_ifs <;> simp
  · intro pos L hpos5 hL hL1 hL31 hLsz
    rw [parse_chunk]
    rw [show readExact f pos 5 = Except.ok (readBytes f pos 5) from by
      rw [readExact, if_pos hpos5]]
    simp only
    have htake : (readBytes f pos 5).take 4 = readBytes f pos 4 := by
      simp only [readBytes, ← List.map_take, List.take_range]
      norm_num
    have hgetD : (readBytes f pos 5).getD 4 0 = f.byteAt (pos + 4) := by
      simp [readBytes, List.getD, List.getD_eq_getElem?_getD,
        List.getElem?_map, List.getElem?_range]
    rw [htake, ← hL, if_neg (by omega)]
    rw [show readExact f (pos + 5) (L - 1) =
      Except.ok (readBytes f (pos + 5) (L - 1)) from by
      rw [readExact, if_pos (by omega)]]
    simp only [hgetD]
    split <;> try rfl
    split <;> try rfl
    split <;> try rfl
    split <;> rfl

/-- Concrete region stream for the C7 witness: location entry (0,0)
holds sector offset 2; at byte 8192 the chunk header declares payload
length 3 with compression 2 (zlib) and two payload bytes. -/
def regionW : RegionFile :=
  ⟨8199, fun p =>
    if p = 2 then 2
    else if p = 8195 then 3
    else if p = 8196 then 2
    else if p = 8197 then 7
    else if p = 8198 then 8
    else 0⟩

/-- Witness for C7: the concrete region stream dispatches its one chunk
to zlib with exactly `payload_length - 1 = 2` compressed bytes. -/
theorem parse_chunk_at_frames_witness :
    parse_chunk_at regionW 0 0 =
      some (Except.ok (ChunkDispatch.zlib [7, 8])) := by
  have h := parse_chunk_at_frames regionW 0 0 (by decide) (by decide)
    (by decide)
  have h2 := h.2.1 (by decide)
  have h4 := h.2.2.2 8192 3 (by decide) (by decide) (by decide) (by decide)
    (by decide)
  rw [h2, show beNat (readBytes regionW 0 3) * 4096 = 8192 from by decide,
    h4]
  rfl

/-! ### src/nbt.rs: tag types -/

/-- `TagType` from src/nbt.rs: the closed set of 13 tag kinds. -/
inductive TagType where
  | End
  | Byte
  | Short
  | Int
  | Long
  | Float
  | Double
  | ByteArray
  | String
  | List
  | Compound
  | IntArray
  | LongArray
deriving DecidableEq, Repr

/-- Wire code of a tag kind (the `repr(u8)` discriminants). -/
def TagType.code : TagType → Nat
  | .End => 0
  | .Byte => 1
  | .Short => 2
  | .Int => 3
  | .Long => 4
  | .Float => 5
  | .Double => 6
  | .ByteArray => 7
  | .String => 8
  | .List => 9
  | .Compound => 10
  | .IntArray => 11
  | .LongArray => 12

/-- `TryFrom<u8> for TagType` from src/nbt.rs: `none` is the
`TagTypeConversionError` case. -/
def TagType.fromU8 (n : Nat) : Option TagType :=
  if n = 0 then some .End
  else if n = 1 then some .Byte
  else if n = 2 then some .Short
  else if n = 3 then some .Int
  else if n = 4 then some .Long
  else if n = 5 then some .Float
  else if n = 6 then some .Double
  else if n = 7 then some .ByteArray
  else if n = 8 then some .String
  else if n = 9 then some .List
  else if n = 10 then some .Compound
  else if n = 11 then some .IntArray
  else if n = 12 then some .LongArray
  else none

/-! ### Rust strings and MUTF-8

A Rust `String` is modelled as its list of Unicode scalar values
(`List Char`).  `rustStrLen` is `str::len`, the UTF-8 byte count.
`mutf8EncodeChar`/`mutf8Encode` model `cesu8::to_java_cesu8`, the
Java-style modified UTF-8 documented in the spec: U+0000 becomes the
two bytes C0 80, BMP code points are standard 1-3 byte UTF-8, and
supra-BMP code points become a surrogate pair of three-byte
sequences. -/

/-- Number of bytes of the standard UTF-8 encoding of one scalar
value; `str::len` sums this over the string. -/
def utf8CharSize (c : Char) : Nat :=
  if c.toNat < 0x80 then 1
  else if c.toNat < 0x800 then 2
  else if c.toNat < 0x10000 then 3
  else 4

/-- `str::len` for the model: UTF-8 byte length. -/
def rustStrLen (s : List Char) : Nat :=
  (s.map utf8CharSize).sum

/-- MUTF-8 (`cesu8::to_java_cesu8`) encoding of one scalar value. -/
def mutf8EncodeChar (c : Char) : List Nat :=
  let n := c.toNat
  if n = 0 then [0xC0, 0x80]
  else if n < 0x80 then [n]
  else if n < 0x800 then [0xC0 + n / 64, 0x80 + n % 64]
  else if n < 0x10000 then
    [0xE0 + n / 4096, 0x80 + n / 64 % 64, 0x80 + n % 64]
  else
    let m := n - 0x10000
    let hi := 0xD800 + m / 1024
    let lo := 0xDC00 + m % 1024
    [0xE0 + hi / 4096, 0x80 + hi / 64 % 64, 0x80 + hi % 64,
     0xE0 + lo / 4096, 0x80 + lo / 64 % 64, 0x80 + lo % 64]

/-- MUTF-8 (`cesu8::to_java_cesu8`) encoding of a string. -/
def mutf8Encode (s : List Char) : List Nat :=
  (s.map mutf8EncodeChar).join

/-- Big-endian bytes of a `u16` value (`u16::to_be_bytes`). -/
def be16 (u : Nat) : List Nat :=
  [u / 256 % 256, u % 256]

/-- Big-endian bytes of a `u32` value (`u32::to_be_bytes`, also used
for `i32` lengths, which the serializer has checked to be
non-negative). -/
def be32 (u : Nat) : List Nat :=
  [u / 16777216 % 256, u / 65536 % 256, u / 256 % 256, u % 256]

/-- Big-endian bytes of an `i16` value (two's complement). -/
def be16i (v : Int) : List Nat :=
  be16 ((v % 65536).toNat)

/-- Big-endian bytes of an `i32` value (two's complement). -/
def be32i (v : Int) : List Nat :=
  be32 ((v % 4294967296).toNat)

/-- Big-endian bytes of an `i64` value (two's complement). -/
def be64i (v : Int) : List Nat :=
  let u := (v % 18446744073709551616).toNat
  be32 (u / 4294967296) ++ be32 (u % 4294967296)

/-! ### src/ser: the binary serializer -/

/-- Encode errors from src/ser/error.rs (`Io` and the free-text
`Message` payloads are not needed by the claims; `Message` text is not
modelled). -/
inductive SerError where
  | io
  | unsignedTooBig
  | stringTooBig
  | sequenceTooBig
  | unknownLength
  | compoundKey
  | message
deriving DecidableEq, Repr

/-- The serde data-model values the serializer claims range over:
signed scalars, strings, `None`/`Some` options, sequences and
string-keyed maps/structs (the shapes serde feeds `ser::Serializer`
for the chunk schema). -/
inductive SValue where
  | vbyte (v : Int)
  | vshort (v : Int)
  | vint (v : Int)
  | vlong (v : Int)
  | vstr (s : List Char)
  | vnone
  | vsome (v : SValue)
  | vlist (elems : List SValue)
  | vcompound (entries : List (List Char × SValue))

/-- `to_tag_type` from src/ser/tag_type.rs: probes the tag type a value
will serialise as.  `serialize_none`/`serialize_unit` answer `End`; a
sequence answers per its first element (Byte→ByteArray, Int→IntArray,
Long→LongArray, else List, an empty sequence answering List via
`unwrap_or(End)`); maps and structs answer Compound. -/
def to_tag_type : SValue → Except SerError TagType
  | .vbyte _ => Except.ok .Byte
  | .vshort _ => Except.ok .Short
  | .vint _ => Except.ok .Int
  | .vlong _ => Except.ok .Long
  | .vstr _ => Except.ok .String
  | .vnone => Except.ok .End
  | .vsome v => to_tag_type v
  | .vlist elems =>
    match elems with
    | [] => Except.ok .List
    | e :: _ =>
      match to_tag_type e with
      | Except.error err => Except.error err
      | Except.ok .Byte => Except.ok .ByteArray
      | Except.ok .Int => Except.ok .IntArray
      | Except.ok .Long => Except.ok .LongArray
      | Except.ok _ => Except.ok .List
  | .vcompound _ => Except.ok .Compound

/-- `BinaryFormatter::write_string`: a big-endian u16 prefix holding
`value.len()` — the UTF-8 byte count, truncated `as u16` — followed by
the MUTF-8 bytes of the value. -/
def write_string (v : List Char) : List Nat :=
  be16 (rustStrLen v % 65536) ++ mutf8Encode v

/-- A map or struct key as serialised into the key buffer by
src/ser/map_key.rs for the binary formatter (string keys go through
`write_string`; no length check happens on keys). -/
def keyBytes (k : List Char) : List Nat :=
  write_string k

mutual

/-- The binary `ser::Serializer` value path from src/ser/mod.rs: emits
the payload bytes of a value.  The `Bool` is the formatter's
`top_level` flag, consumed by the first `start_compound`/`start_list`;
scalar writes go through `BinaryFormatter`; `serialize_str` raises
`StringTooBig` when the UTF-8 length exceeds `u16::MAX`;
`serialize_none` writes nothing; a sequence probes its first element's
tag type and emits the matching container header (typed array headers
are a bare i32 length, a list header is element type plus length,
prefixed at top level by the tag code 9 and an empty name);
`serialize_map`/`serialize_struct` emit the compound header (at top
level tag code 10 plus an empty name), the entries, then the End tag. -/
def writeValue : SValue → Bool → Except SerError (List Nat × Bool)
  | .vbyte v, tl => Except.ok ([u8OfI8 v], tl)
  | .vshort v, tl => Except.ok (be16i v, tl)
  | .vint v, tl => Except.ok (be32i v, tl)
  | .vlong v, tl => Except.ok (be64i v, tl)
  | .vstr s, tl =>
    if rustStrLen s > 65535 then Except.error SerError.stringTooBig
    else Except.ok (write_string s, tl)
  | .vnone, tl => Except.ok ([], tl)
  | .vsome v, tl => writeValue v tl
  | .vlist elems, tl =>
    if elems.length > 2147483647 then Except.error SerError.sequenceTooBig
    else
      match elems with
      | [] => Except.ok ([], tl)
      | e :: _ =>
        match to_tag_type e with
        | Except.error err => Except.error err
        | Except.ok t =>
          let hdr :=
            if t = TagType.Byte ∨ t = TagType.Int ∨ t = TagType.Long then
              (be32 elems.length, tl)
            else if tl then
              ([TagType.List.code, 0, 0] ++ [t.code] ++ be32 elems.length,
                false)
            else ([t.code] ++ be32 elems.length, tl)
          match writeElems elems hdr.2 with
          | Except.error err => Except.error err
          | Except.ok (body, tl2) => Except.ok (hdr.1 ++ body, tl2)
  | .vcompound entries, tl =>
    let hdr :=
      if tl then ([TagType.Compound.code, 0, 0], false) else ([], tl)
    match writeEntries entries hdr.2 with
    | Except.error err => Except.error err
    | Except.ok (body, tl2) =>
      Except.ok (hdr.1 ++ body ++ [TagType.End.code], tl2)

/-- `SerializeSeq::serialize_element` iterated over the elements (the
container header has already been emitted by `writeValue`). -/
def writeElems : List SValue → Bool → Except SerError (List Nat × Bool)
  | [], tl => Except.ok ([], tl)
  | e :: rest, tl =>
    match writeValue e tl with
    | Except.error err => Except.error err
    | Except.ok (eb, tl1) =>
      match writeElems rest tl1 with
      | Except.error err => Except.error err
      | Except.ok (rb, tl2) => Except.ok (eb ++ rb, tl2)

/-- `MapSerializer::serialize_key`/`serialize_value` iterated over the
entries of a compound: each entry emits the probed value tag code,
the serialised key, then the value payload (`serialize_none` payloads
are empty). -/
def writeEntries :
    List (List Char × SValue) → Bool → Except SerError (List Nat × Bool)
  | [], tl => Except.ok ([], tl)
  | (k, v) :: rest, tl =>
    match to_tag_type v with
    | Except.error err => Except.error err
    | Except.ok t =>
      match writeValue v tl with
      | Except.error err => Except.error err
      | Except.ok (vb, tl1) =>
        match writeEntries rest tl1 with
        | Except.error err => Except.error err
        | Except.ok (rb, tl2) =>
          Except.ok ((t.code :: keyBytes k) ++ vb ++ rb, tl2)

end

/-- `to_writer` from src/ser/mod.rs with the binary formatter (the
fresh formatter starts with `top_level = true`). -/
def to_writer (v : SValue) : Except SerError (List Nat) :=
  match writeValue v true with
  | Except.error err => Except.error err
  | Except.ok (bytes, _) => Except.ok bytes

/-- C10: a compound or struct entry whose value is an absent optional
(`None`) still emits its entry header — tag code 0 (End) followed by
the encoded key — writes no payload bytes, and the remaining entries
follow; and a top-level compound holding one absent optional entry
serialises to exactly header, End-tagged entry and terminator.  Absent
optional fields are not omitted. -/
theorem serialize_none_entry (k : List Char)
    (rest : List (List Char × SValue)) (tl : Bool) :
    writeEntries ((k, SValue.vnone) :: rest) tl =
      (match writeEntries rest tl with
       | Except.error err => Except.error err
       | Except.ok (rb, tl2) => Except.ok (0 :: (keyBytes k ++ rb), tl2)) ∧
    to_writer (SValue.vcompound [(k, SValue.vnone)]) =
      Except.ok ([10, 0, 0] ++ (0 :: keyBytes k) ++ [0]) := by
  constructor
  · rw [writeEntries]
    rw [show to_tag_type SValue.vnone = Except.ok TagType.End from rfl]
    rw [show writeValue SValue.vnone tl = Except.ok ([], tl) from rfl]
    cases h : writeEntries rest tl with
    | error err => simp [h]
    | ok out => simp [h, TagType.code]
  · rw [to_writer]
    simp [writeValue, writeEntries, to_tag_type, TagType.code]

/-- `serialize_str` from src/ser/mod.rs: rejects strings whose UTF-8
length `v.len()` exceeds `u16::MAX` with `StringTooBig`, then hands the
string to `BinaryFormatter::write_string`. -/
def serialize_str (v : List Char) : Except SerError (List Nat) :=
  if rustStrLen v > 65535 then Except.error SerError.stringTooBig
  else Except.ok (write_string v)

theorem rustStrLen_replicate (n : Nat) (c : Char) :
    rustStrLen (List.replicate n c) = n * utf8CharSize c := by
  simp [rustStrLen, List.map_replicate, List.sum_replicate, smul_eq_mul]

theorem mutf8Encode_replicate_length (n : Nat) (c : Char) :
    (mutf8Encode (List.replicate n c)).length =
      n * (mutf8EncodeChar c).length := by
  simp [mutf8Encode, List.map_replicate, List.length_join,
    List.sum_replicate, smul_eq_mul]

/-- C8 (code-bug exhibit): the emitted String payload for the
one-character string U+0000 is `00 01 C0 80` — a length prefix of 1
(the UTF-8 byte count) followed by 2 MUTF-8 bytes, so the prefix does
not equal the number of MUTF-8 bytes that follow; and for 33000
U+0000 characters the MUTF-8 encoding is 66000 bytes (> 65535) yet
`serialize_str` does not raise `StringTooBig`, because the check uses
the UTF-8 length 33000. -/
theorem serialize_str_mutf8_mismatch :
    serialize_str [Char.ofNat 0] = Except.ok [0, 1, 0xC0, 0x80] ∧
    (mutf8Encode [Char.ofNat 0]).length = 2 ∧
    serialize_str (List.replicate 33000 (Char.ofNat 0)) ≠
      Except.error SerError.stringTooBig ∧
    (mutf8Encode (List.replicate 33000 (Char.ofNat 0))).length = 66000 := by
  have hcs : utf8CharSize (Char.ofNat 0) = 1 := by decide
  have hce : (mutf8EncodeChar (Char.ofNat 0)).length = 2 := by decide
  refine ⟨by rfl, by decide, ?_, ?_⟩
  · rw [serialize_str, if_neg]
    · intro hc
      exact Except.noConfusion hc
    · rw [rustStrLen_replicate, hcs]
      norm_num
  · rw [mutf8Encode_replicate_length, hce]

/-! ### MUTF-8 decoding (`cesu8::from_java_cesu8`)

The cesu8 crate first runs the standard library UTF-8 validation and
borrows the bytes when they are valid standard UTF-8; otherwise it
re-decodes them as Java CESU-8 (three-byte surrogate pairs, `C0 80`
for U+0000, no four-byte sequences), failing on anything malformed. -/

/-- Whether a byte is a UTF-8 continuation byte `10xxxxxx`. -/
def isCont (b : Nat) : Prop :=
  0x80 ≤ b ∧ b < 0xC0

instance (b : Nat) : Decidable (isCont b) := by
  unfold isCont
  infer_instance

/-- Standard library UTF-8 decoding (`str::from_utf8`): strict —
rejects overlong forms, surrogate code points, values above U+10FFFF
and truncated sequences. -/
def utf8Decode : List Nat → Option (List Char)
  | [] => some []
  | b :: rest =>
    if b < 0x80 then (utf8Decode rest).map (Char.ofNat b :: ·)
    else if b < 0xC2 then none
    else if b < 0xE0 then
      match rest with
      | b2 :: rest2 =>
        if isCont b2 then
          (utf8Decode rest2).map
            (Char.ofNat ((b - 0xC0) * 64 + (b2 - 0x80)) :: ·)
        else none
      | [] => none
    else if b < 0xF0 then
      match rest with
      | b2 :: b3 :: rest3 =>
        if isCont b2 ∧ isCont b3 then
          let v := (b - 0xE0) * 4096 + (b2 - 0x80) * 64 + (b3 - 0x80)
          if v < 0x800 ∨ (0xD800 ≤ v ∧ v < 0xE000) then none
          else (utf8Decode rest3).map (Char.ofNat v :: ·)
        else none
      | _ => none
    else if b < 0xF5 then
      match rest with
      | b2 :: b3 :: b4 :: rest4 =>
        if isCont b2 ∧ isCont b3 ∧ isCont b4 then
          let v := (b - 0xF0) * 262144 + (b2 - 0x80) * 4096 +
            (b3 - 0x80) * 64 + (b4 - 0x80)
          if v < 0x10000 ∨ 0x10FFFF < v then none
          else (utf8Decode rest4).map (Char.ofNat v :: ·)
        else none
      | _ => none
    else none

/-- The cesu8 crate's Java CESU-8 decoder (slow path): ASCII bytes,
two-byte sequences (`C0 80` decodes to U+0000), three-byte sequences
with surrogate halves paired into supra-BMP scalars; stray
continuation bytes, four-byte sequences, unpaired surrogates and
truncated sequences are errors. -/
def mutf8SlowDecode : List Nat → Option (List Char)
  | [] => some []
  | b :: rest =>
    if b < 0x80 then (mutf8SlowDecode rest).map (Char.ofNat b :: ·)
    else if b < 0xC0 then none
    else if b < 0xE0 then
      match rest with
      | b2 :: rest2 =>
        if isCont b2 then
          (mutf8SlowDecode rest2).map
            (Char.ofNat ((b - 0xC0) * 64 + (b2 - 0x80)) :: ·)
        else none
      | [] => none
    else if b < 0xF0 then
      match rest with
      | b2 :: b3 :: rest3 =>
        if isCont b2 ∧ isCont b3 then
          let v := (b - 0xE0) * 4096 + (b2 - 0x80) * 64 + (b3 - 0x80)
          if 0xD800 ≤ v ∧ v < 0xDC00 then
            match rest3 with
            | c1 :: c2 :: c3 :: rest6 =>
              if 0xE0 ≤ c1 ∧ c1 < 0xF0 ∧ isCont c2 ∧ isCont c3 then
                let w := (c1 - 0xE0) * 4096 + (c2 - 0x80) * 64 + (c3 - 0x80)
                if 0xDC00 ≤ w ∧ w < 0xE000 then
                  (mutf8SlowDecode rest6).map
                    (Char.ofNat
                      (0x10000 + (v - 0xD800) * 1024 + (w - 0xDC00)) :: ·)
                else none
              else none
            | _ => none
          else if 0xDC00 ≤ v ∧ v < 0xE000 then none
          else (mutf8SlowDecode rest3).map (Char.ofNat v :: ·)
        else none
      | _ => none
    else none

/-- `cesu8::from_java_cesu8`: accept valid standard UTF-8 unchanged,
otherwise fall back to the Java CESU-8 decoder. -/
def from_java_cesu8 (bytes : List Nat) : Option (List Char) :=
  match utf8Decode bytes with
  | some s => some s
  | none => mutf8SlowDecode bytes

/-! ### src/de: errors and the slice-backed reader -/

/-- Decode errors from src/de/error.rs (free `Message` text is not
modelled). -/
inductive DeError where
  | io
  | invalidBooleanValue (b : Int)
  | negativeUnsigned
  | negativeLength
  | invalidTopLevel (t : TagType)
  | invalidMUTF8
  | unexpectedEndTag
  | invalidTagForSeq (t : TagType)
  | invalidTagType (b : Nat)
  | invalidTagForBytes (t : TagType)
  | message
deriving DecidableEq, Repr

/-- The slice-backed reader from src/de/read.rs: the not-yet-consumed
suffix of the input. -/
structure Slice where
  slice : List Nat
deriving DecidableEq, Repr

/-- `Slice::read_byte`: `split_at(1)` then `i8::from_be_bytes`.
`none` models the `split_at` panic on a truncated slice. -/
def Slice.read_byte (s : Slice) : Option (Int × Slice) :=
  if 1 ≤ s.slice.length then
    some (toSigned 8 (beNat (s.slice.take 1)), ⟨s.slice.drop 1⟩)
  else none

/-- `Slice::read_short`: `split_at(2)` then `i16::from_be_bytes`. -/
def Slice.read_short (s : Slice) : Option (Int × Slice) :=
  if 2 ≤ s.slice.length then
    some (toSigned 16 (beNat (s.slice.take 2)), ⟨s.slice.drop 2⟩)
  else none

/-- `Slice::read_int`: `split_at(4)` then `i32::from_be_bytes`. -/
def Slice.read_int (s : Slice) : Option (Int × Slice) :=
  if 4 ≤ s.slice.length then
    some (toSigned 32 (beNat (s.slice.take 4)), ⟨s.slice.drop 4⟩)
  else none

/-- `Slice::read_long`: `split_at(8)` then `i64::from_be_bytes`. -/
def Slice.read_long (s : Slice) : Option (Int × Slice) :=
  if 8 ≤ s.slice.length then
    some (toSigned 64 (beNat (s.slice.take 8)), ⟨s.slice.drop 8⟩)
  else none

/-- `Slice::read_float`: `split_at(4)`; the IEEE-754 value itself is
not needed by any claim, only the consumption and the panic. -/
def Slice.read_float (s : Slice) : Option Slice :=
  if 4 ≤ s.slice.length then some ⟨s.slice.drop 4⟩ else none

/-- `Slice::read_double`: `split_at(8)`. -/
def Slice.read_double (s : Slice) : Option Slice :=
  if 8 ≤ s.slice.length then some ⟨s.slice.drop 8⟩ else none

/-- `Read::read_tag_type`: reads a byte, casts it `as u8` and validates
it against the 13 tag kinds (`InvalidTagType` otherwise). -/
def Slice.read_tag_type (s : Slice) :
    Option (Except DeError (TagType × Slice)) :=
  match s.read_byte with
  | none => none
  | some (b, s1) =>
    match TagType.fromU8 (u8OfI8 b) with
    | some t => some (Except.ok (t, s1))
    | none => some (Except.error (DeError.invalidTagType (u8OfI8 b)))

/-- `Slice::ignore_string`: reads the i16 length, casts it `as usize`
(sign-extending — a negative length becomes astronomically large) and
`split_at`s that many bytes; `none` models the resulting panic. -/
def Slice.ignore_string (s : Slice) : Option Slice :=
  match s.read_short with
  | none => none
  | some (len, s1) =>
    let l := ((len % 18446744073709551616).toNat)
    if l ≤ s1.slice.length then some ⟨s1.slice.drop l⟩ else none

/-- `Slice::read_string`: reads the u16 length, `split_at`s that many
bytes and MUTF-8-decodes them (`InvalidMUTF8` on failure). -/
def Slice.read_string (s : Slice) :
    Option (Except DeError (List Char × Slice)) :=
  if 2 ≤ s.slice.length then
    let len := beNat (s.slice.take 2)
    let rest := s.slice.drop 2
    if len ≤ rest.length then
      match from_java_cesu8 (rest.take len) with
      | none => some (Except.error DeError.invalidMUTF8)
      | some cs => some (Except.ok (cs, ⟨rest.drop len⟩))
    else none
  else none

/-- The `SeqAccess` element loop of src/de/mod.rs instantiated at
element type `String` (deserialising `Vec<String>`): each element is
read through `UnnamedDeserializer::deserialize_any` with the list's
element tag.  A String element goes through `read_string`; an End tag
raises `UnexpectedEndTag`; scalar tags read their payload and are then
rejected by the String visitor (serde invalid-type `Message`); nested
array/list/compound tags read their headers per `deserialize_seq` /
`deserialize_map` before the visitor rejects them. -/
def readVecStringElems :
    TagType → Nat → Slice → Option (Except DeError (List (List Char) × Slice))
  | _, 0, s => some (Except.ok ([], s))
  | t, n + 1, s =>
    match t with
    | TagType.String =>
      match s.read_string with
      | none => none
      | some (Except.error e) => some (Except.error e)
      | some (Except.ok (c, s1)) =>
        match readVecStringElems TagType.String n s1 with
        | none => none
        | some (Except.error e) => some (Except.error e)
        | some (Except.ok (cs, s2)) => some (Except.ok (c :: cs, s2))
    | TagType.End => some (Except.error DeError.unexpectedEndTag)
    | TagType.Byte =>
      match s.read_byte with
      | none => none
      | some _ => some (Except.error DeError.message)
    | TagType.Short =>
      match s.read_short with
      | none => none
      | some _ => some (Except.error DeError.message)
    | TagType.Int =>
      match s.read_int with
      | none => none
      | some _ => some (Except.error DeError.message)
    | TagType.Long =>
      match s.read_long with
      | none => none
      | some _ => some (Except.error DeError.message)
    | TagType.Float =>
      match s.read_float with
      | none => none
      | some _ => some (Except.error DeError.message)
    | TagType.Double =>
      match s.read_double with
      | none => none
      | some _ => some (Except.error DeError.message)
    | TagType.ByteArray =>
      match s.read_int with
      | none => none
      | some (len, _) =>
        if len < 0 then some (Except.error DeError.negativeLength)
        else some (Except.error DeError.message)
    | TagType.IntArray =>
      match s.read_int with
      | none => none
      | some (len, _) =>
        if len < 0 then some (Except.error DeError.negativeLength)
        else some (Except.error DeError.message)
    | TagType.LongArray =>
      match s.read_int with
      | none => none
      | some (len, _) =>
        if len < 0 then some (Except.error DeError.negativeLength)
        else some (Except.error DeError.message)
    | TagType.List =>
      match s.read_tag_type with
      | none => none
      | some (Except.error e) => some (Except.error e)
      | some (Except.ok (_, s1)) =>
        match s1.read_int with
        | none => none
        | some (len, _) =>
          if len < 0 then some (Except.error DeError.negativeLength)
          else some (Except.error DeError.message)
    | TagType.Compound => some (Except.error DeError.message)

/-- `from_slice::<Vec<String>>` from src/de/mod.rs: the top-level
`deserialize_any` reads the tag kind and skips the document name, then
requires List (reading element kind and i32 length, rejecting a
negative length) or Compound (which the `Vec` visitor rejects); any
other root is `InvalidTopLevel`.  `none` models the panics of the
slice reader on truncated input. -/
def from_slice_vec_string (bytes : List Nat) :
    Option (Except DeError (List (List Char))) :=
  let s0 : Slice := ⟨bytes⟩
  match s0.read_tag_type with
  | none => none
  | some (Except.error e) => some (Except.error e)
  | some (Except.ok (t, s1)) =>
    match s1.ignore_string with
    | none => none
    | some s2 =>
      match t with
      | TagType.List =>
        match s2.read_tag_type with
        | none => none
        | some (Except.error e) => some (Except.error e)
        | some (Except.ok (et, s3)) =>
          match s3.read_int with
          | none => none
          | some (len, s4) =>
            if len < 0 then some (Except.error DeError.negativeLength)
            else
              match readVecStringElems et len.toNat s4 with
              | none => none
              | some (Except.error e) => some (Except.error e)
              | some (Except.ok (cs, _)) => some (Except.ok cs)
      | TagType.Compound => some (Except.error DeError.message)
      | t2 => some (Except.error (DeError.invalidTopLevel t2))

/-- C2 (code-bug exhibit): the schema-representable value
`vec!["\u0000"]` serialises, but deserialising the produced bytes
fails with `InvalidMUTF8` instead of returning the value: the writer's
u16 length prefix (1, the UTF-8 length) does not cover the 2 MUTF-8
bytes `C0 80`, so the reader takes the lone byte `C0` as the string
and rejects it.  Hence decode(encode(V)) ≠ V for values whose strings
contain U+0000. -/
theorem roundtrip_nul_string_fails :
    to_writer (SValue.vlist [SValue.vstr [Char.ofNat 0]]) =
      Except.ok [9, 0, 0, 8, 0, 0, 0, 1, 0, 1, 0xC0, 0x80] ∧
    from_slice_vec_string [9, 0, 0, 8, 0, 0, 0, 1, 0, 1, 0xC0, 0x80] =
      some (Except.error DeError.invalidMUTF8) :=
  ⟨rfl, rfl⟩

/-- Concrete stream for the C1 exhibit: a chunk header whose i32
payload-length field is 0 (followed by compression byte 2). -/
def regionZeroLength : RegionFile :=
  ⟨5, fun p => if p = 4 then 2 else 0⟩

/-- C1 (code-bug exhibit): the core panics on malformed input instead
of returning an error value.  `from_slice` on an empty (truncated)
slice panics in `Slice::read_byte` (`split_at` out of bounds);
`Slice::read_int` panics on fewer than 4 remaining bytes;
`Slice::ignore_string` sign-extends a negative i16 length `as usize`
and panics in `split_at`; and `parse_chunk` on a header whose
payload-length field is 0 underflows `length - 1` (`none` models each
panic). -/
theorem core_panics_on_malformed_input :
    from_slice_vec_string [] = none ∧
    Slice.read_int ⟨[10, 0]⟩ = none ∧
    Slice.ignore_string ⟨[0xFF, 0xFF]⟩ = none ∧
    parse_chunk regionZeroLength 0 = none :=
  ⟨rfl, rfl, rfl, rfl⟩
